import Mathlib

/-
Verification of the offline replica inspection and repair engine
(kudu/tools/tool_action_local_replica.cc) against its specification.

The development shallowly embeds the two independent paths of the tool:
  * the consensus metadata rewriter (RewriteRaftConfig and its peer-string
    parsing helpers), modelled as a pure function over an explicit file
    system state together with the trace of file operations it performs;
  * the rowset and delta block dump path (DumpRowSet, DumpRowSetInternal,
    DumpDeltaCFileBlockInternal), modelled as pure functions producing the
    per-batch data the loop computes.

External collaborators that live outside this source file (Env and
env_util CopyFile, ConsensusMetadata Load and Flush, HostPort ParseString,
CFileSet iterators, DeltaFileReader) are modelled from the specification;
each such definition carries a doc comment saying so.  Strings from the
C++ code are modelled as lists of characters.
-/

namespace KuduLocalReplica

/-- Character-list strings, mirroring std::string in the C++ source. -/
abbrev Str := List Char

/-- Status codes of kudu::Status, restricted to the codes this file uses. -/
inductive StatusCode where
  | ok
  | invalidArgument
  | notFound
  | corruption
  | alreadyPresent
  | ioError
deriving DecidableEq

/-- Network address: hostname plus port, as in kudu::HostPort. -/
structure HostPort where
  host : Str
  port : Nat
deriving DecidableEq

/-- Splits a character list at every colon, accumulating the current piece. -/
def splitColsAux : List Char → List Char → List (List Char)
  | [], acc => [acc.reverse]
  | ':' :: rest, acc => acc.reverse :: splitColsAux rest []
  | c :: rest, acc => splitColsAux rest (c :: acc)

/-- Splits a character list at every colon. -/
def splitCols (s : Str) : List Str :=
  splitColsAux s []

/-- Splits a character list at the first colon, or gives none when the
string has no colon, mirroring find plus substr in ParsePeerString. -/
def splitFirstColon : List Char → Option (Str × Str)
  | [] => none
  | ':' :: rest => some ([], rest)
  | c :: rest => (splitFirstColon rest).map (fun p => (c :: p.1, p.2))

/-- Parses a nonempty all-digit character list into a number. -/
def parseDigits : List Char → Option Nat
  | [] => none
  | cs => parseDigitsAux cs 0
where
  parseDigitsAux : List Char → Nat → Option Nat
    | [], acc => some acc
    | c :: rest, acc =>
      if c.isDigit then parseDigitsAux rest (10 * acc + (c.toNat - '0'.toNat))
      else none

/-- Modelled from the spec: HostPort ParseString (kudu/util/net/net_util.cc,
not under src/) splits a host and optional port at a colon; a missing port
takes the supplied default, and the port must be a number fitting a port
field.  Each peer address must parse as host plus port. -/
def HostPort.parseString (s : Str) (defaultPort : Nat) : Except StatusCode HostPort :=
  match splitCols s with
  | [host] => .ok ⟨host, defaultPort⟩
  | [host, portStr] =>
    match parseDigits portStr with
    | some p => if p ≤ 65535 then .ok ⟨host, p⟩ else .error .invalidArgument
    | none => .error .invalidArgument
  | _ => .error .invalidArgument

/-- Embeds ParseHostPortString from the source: parse with default port 0
and reject a port of value 0 with InvalidArgument. -/
def ParseHostPortString (s : Str) : Except StatusCode HostPort :=
  match HostPort.parseString s 0 with
  | .error e => .error e
  | .ok hp => if hp.port = 0 then .error .invalidArgument else .ok hp

/-- Embeds ParsePeerString from the source: split at the first colon into
a uuid and a host-port remainder; a string with no colon is a bad peer. -/
def ParsePeerString (s : Str) : Except StatusCode (Str × HostPort) :=
  match splitFirstColon s with
  | none => .error .invalidArgument
  | some (uuid, hostportStr) =>
    match ParseHostPortString hostportStr with
    | .error e => .error e
    | .ok hp => .ok (uuid, hp)

/-- Raft peer membership type; the rewriter only ever stages voters. -/
inductive PeerRole where
  | voter
deriving DecidableEq

/-- One peer record of the persisted Raft configuration. -/
structure RaftPeerPB where
  memberType : PeerRole
  permanentUuid : Str
  lastKnownAddr : HostPort
deriving DecidableEq

/-- Persisted Raft configuration: the peer list plus the other fields the
rewrite copies over unchanged, collapsed into one opaque number. -/
structure RaftConfigPB where
  opidIndex : Nat
  peers : List RaftPeerPB
deriving DecidableEq

/-- Persisted consensus metadata record of one replica. -/
structure CMetaPB where
  currentTerm : Nat
  committedConfig : RaftConfigPB
deriving DecidableEq

/-- Content of a file in the modelled file system: a well-formed consensus
metadata record, or bytes that do not parse. -/
inductive FileContent where
  | cmetaBytes (pb : CMetaPB)
  | corrupted
deriving DecidableEq

/-- Paths the rewriter touches: the consensus metadata file of a tablet,
and its backup path, which embeds the creation timestamp in microseconds
(the source builds it as the cmeta path followed by pre_rewrite and the
value of Env NowMicros). -/
inductive FPath where
  | cmeta (tabletId : Str)
  | backup (tabletId : Str) (stampMicros : Nat)
deriving DecidableEq

/-- File system state: an association list from paths to contents. -/
structure FileSys where
  files : List (FPath × FileContent)
deriving DecidableEq

/-- Looks a path up in the file system. -/
def FileSys.lookup (fs : FileSys) (p : FPath) : Option FileContent :=
  (fs.files.find? (fun e => decide (e.1 = p))).map (fun e => e.2)

/-- Writes a file, shadowing any previous content at that path. -/
def FileSys.write (fs : FileSys) (p : FPath) (c : FileContent) : FileSys :=
  ⟨(p, c) :: fs.files⟩

/-- Environment oracles for one run: the clock value Env NowMicros returns,
and the success of each fallible external file operation beyond the checks
the model performs itself. -/
structure Oracles where
  nowMicros : Nat
  copyOk : Bool
  loadOk : Bool
  flushOk : Bool
deriving DecidableEq

/-- File mutation events a run may perform, in order:
copyFile records an attempted env_util CopyFile with its create-non-existing
and sync-on-close options and whether it succeeded; flushCMeta records an
attempted overwrite of the consensus metadata file with a staged record. -/
inductive Event where
  | copyFile (src dst : FPath) (createNonExisting syncOnClose : Bool) (ok : Bool)
  | flushCMeta (dst : FPath) (pb : CMetaPB) (syncOnClose : Bool) (ok : Bool)
deriving DecidableEq

/-- Result of one run of the rewriter: final status, the ordered trace of
file mutation events, and the final file system. -/
structure RunOut where
  status : StatusCode
  trace : List Event
  fs : FileSys
deriving DecidableEq

/-- Embeds the peer-parsing loop of RewriteRaftConfig: parse each variadic
argument in order, failing on the first malformed one. -/
def parsePeers : List Str → Except StatusCode (List (Str × HostPort))
  | [] => .ok []
  | a :: rest =>
    match ParsePeerString a with
    | .error e => .error e
    | .ok p =>
      match parsePeers rest with
      | .error e => .error e
      | .ok ps => .ok (p :: ps)

/-- Embeds the staging step of RewriteRaftConfig: copy the current config,
clear its peers and add one voter per parsed peer. -/
def stagePeers (cfg : RaftConfigPB) (peers : List (Str × HostPort)) : RaftConfigPB :=
  { cfg with peers := peers.map (fun p => ⟨.voter, p.1, p.2⟩) }

/-- Embeds RewriteRaftConfig.  The parsing loop is the source loop over the
variadic arguments.  The DCHECK on a nonempty peer list is compiled out of
release builds, so no emptiness check occurs here.  The backup copy is
env_util CopyFile with mode CREATE_NON_EXISTING and sync_on_close, modelled
from the spec (kudu/util/env_util.cc is not under src/): it fails without
touching anything when a file already exists at the destination or when the
copy oracle fails, and otherwise duplicates the source bytes verbatim.
ConsensusMetadata Load and Flush (kudu/consensus/consensus_meta.cc, not
under src/) are modelled from the spec: Load reads the whole record and
fails on unparseable bytes; Flush overwrites the primary file with the
staged record, fsynced on close, and on failure may leave the primary in an
inconsistent state. -/
def rewriteRaftConfig (tabletId : Str) (args : List Str)
    (fs : FileSys) (o : Oracles) : RunOut :=
  match parsePeers args with
  | .error e => ⟨e, [], fs⟩
  | .ok peers =>
    let cmetaPath := FPath.cmeta tabletId
    let backupPath := FPath.backup tabletId o.nowMicros
    match fs.lookup cmetaPath with
    | none => ⟨.notFound, [.copyFile cmetaPath backupPath true true false], fs⟩
    | some oldContent =>
      if (fs.lookup backupPath).isSome then
        ⟨.alreadyPresent, [.copyFile cmetaPath backupPath true true false], fs⟩
      else if o.copyOk = false then
        ⟨.ioError, [.copyFile cmetaPath backupPath true true false], fs⟩
      else
        let ev1 := Event.copyFile cmetaPath backupPath true true true
        let fs1 := fs.write backupPath oldContent
        match oldContent with
        | .corrupted => ⟨.corruption, [ev1], fs1⟩
        | .cmetaBytes pb =>
          if o.loadOk = false then ⟨.ioError, [ev1], fs1⟩
          else
            let newPb : CMetaPB :=
              { pb with committedConfig := stagePeers pb.committedConfig peers }
            if o.flushOk then
              ⟨.ok, [ev1, .flushCMeta cmetaPath newPb true true],
                (fs1.write cmetaPath (.cmetaBytes newPb))⟩
            else
              ⟨.ioError, [ev1, .flushCMeta cmetaPath newPb true false],
                (fs1.write cmetaPath .corrupted)⟩

/-- True exactly on flush events, the overwrite of the primary file. -/
def isFlushEv : Event → Bool
  | .flushCMeta _ _ _ _ => true
  | .copyFile _ _ _ _ _ => false

/-- The successful backup copy event for a tablet at a given timestamp. -/
def backupOkEv (tid : Str) (stamp : Nat) : Event :=
  .copyFile (.cmeta tid) (.backup tid stamp) true true true

/-- Scans a trace in order and reports true when a flush of the primary
file occurs with no successful backup copy strictly earlier. -/
def flushBeforeBackup (b : Event) : List Event → Bool
  | [] => false
  | e :: rest =>
    if isFlushEv e then true
    else if e = b then false
    else flushBeforeBackup b rest

/-- Direction tag of a delta block, as in tablet::DeltaType. -/
inductive DeltaType where
  | UNDO
  | REDO
deriving DecidableEq

/-- Visibility snapshot, as in tablet::MvccSnapshot.  The class in general
also supports point-in-time snapshots; the dump path must construct only
the two canonical forms. -/
inductive MvccSnapshot where
  | allVisible
  | noneVisible
  | pointInTime (t : Nat)
deriving DecidableEq

/-- Embeds the snapshot selection of DumpDeltaCFileBlockInternal: a REDO
block is read under the snapshot including all transactions and an UNDO
block under the snapshot including none. -/
def snapshotForDeltaType : DeltaType → MvccSnapshot
  | .REDO => .allVisible
  | .UNDO => .noneVisible

/-- One decoded delta entry: the row position inside the rowset, the column
it mutates and the value it carries (the before value for UNDO, the after
value for REDO). -/
structure DeltaEntry where
  rowIdx : Nat
  colIdx : Nat
  value : Int
deriving DecidableEq

/-- Modelled from the spec: DeltaIterator PrepareBatch with
PREPARE_FOR_COLLECT followed by FilterColumnIdsAndCollectDeltas with an
empty column filter (kudu/tablet/deltafile.cc, not under src/) hands back
exactly the delta entries whose row positions fall in the prepared batch
ordinal range, in their stored order. -/
def collectWindow (entries : List DeltaEntry) (lo n : Nat) : List DeltaEntry :=
  entries.filter (fun e => decide (lo ≤ e.rowIdx ∧ e.rowIdx < lo + n))

/-- Fixed batch size of the delta dump loop, kRowsPerBlock in the source. -/
def kRowsPerBlock : Nat := 100

/-- Embeds the while loop of DumpDeltaCFileBlockInternal.  Each iteration
runs while the cfileset iterator has rows left; with a positive nrows flag
the remaining request is computed and the loop breaks when it reaches zero,
otherwise the batch starts at the fixed size; the cfileset PrepareBatch
clamps the batch to the rows remaining in the rowset (modelled from the
spec, kudu/tablet/cfile_set.cc is not under src/); the delta iterator then
collects the entries of that window and the consumed row counter advances
by the clamped batch size.  Recursion is fueled; fuel at least the total
row count is enough because every iteration consumes at least one row. -/
def deltaDumpLoop (flag : Int) (total : Nat) (entries : List DeltaEntry) :
    Nat → Nat → List (Nat × List DeltaEntry)
  | 0, _ => []
  | fuel + 1, nrows =>
    if nrows < total then
      if 0 < flag ∧ flag.toNat - nrows = 0 then []
      else
        let n := if 0 < flag then min (flag.toNat - nrows) kRowsPerBlock else kRowsPerBlock
        let n' := min n (total - nrows)
        (n', collectWindow entries nrows n') ::
          deltaDumpLoop flag total entries fuel (nrows + n')
    else []

/-- Configuration flags the dump entry points read. -/
structure DumpFlags where
  metadataOnly : Bool
  nrows : Int
  verbose : Bool
deriving DecidableEq

/-- A persisted delta block: whether opening its reader succeeds, and its
decoded entries in stored order (ascending row position). -/
structure DeltaBlock where
  openOk : Bool
  entries : List DeltaEntry
deriving DecidableEq

/-- Observable outcome of DumpDeltaCFileBlockInternal: the status, the
snapshot the path constructed (none when it returned before building one),
whether the empty-block outcome was reported, the per-batch sizes with the
delta entries collected for each batch, and the contents of the row batch
buffer after each iteration.  The RowBlock is allocated at the fixed batch
capacity, resized to the batch size each iteration, and never written by
this loop, so every slot is modelled as an Option that stays none. -/
structure DeltaBlockDumpOut where
  status : StatusCode
  snapUsed : Option MvccSnapshot
  emptyReported : Bool
  batches : List (Nat × List DeltaEntry)
  buffers : List (List (List (Option Int)))
deriving DecidableEq

/-- Embeds DumpDeltaCFileBlockInternal for one delta block.  Opening the
block reader may fail; with metadata_only set the function returns after
printing stats and before building a snapshot; NewDeltaIterator gives
NotFound exactly for a delta block with zero entries (modelled from the
spec, the distinguished Empty outcome), which the source reports as an
empty delta block and turns into success; otherwise the batch loop runs
over the base row count of the rowset. -/
def DumpDeltaCFileBlockInternal (flags : DumpFlags) (numRows ncols : Nat)
    (blk : DeltaBlock) (dt : DeltaType) : DeltaBlockDumpOut :=
  if blk.openOk = false then ⟨.ioError, none, false, [], []⟩
  else if flags.metadataOnly then ⟨.ok, none, false, [], []⟩
  else
    let snap := snapshotForDeltaType dt
    if blk.entries = [] then ⟨.ok, some snap, true, [], []⟩
    else
      let bs := deltaDumpLoop flags.nrows numRows blk.entries numRows 0
      ⟨.ok, some snap, false, bs,
        bs.map (fun b => List.replicate b.1 (List.replicate ncols (none : Option Int)))⟩

/-- A persisted column block of a rowset; only whether its cfile reader
opens and dumps successfully matters to the embedded control flow. -/
structure ColBlock where
  openOk : Bool
deriving DecidableEq

/-- Rowset descriptor: the persisted numeric rowset id, the base row count,
the column blocks and the UNDO and REDO delta block lists. -/
structure RowSetMeta where
  id : Int
  numRows : Nat
  colBlocks : List ColBlock
  undoBlocks : List DeltaBlock
  redoBlocks : List DeltaBlock
deriving DecidableEq

/-- Per-block record of what DumpRowSetInternal produced. -/
inductive BlockReport where
  | columnHeaderOnly
  | columnDumped
  | delta (dt : DeltaType) (out : DeltaBlockDumpOut)
deriving DecidableEq

/-- Embeds the column block loop of DumpRowSetInternal: each column block
prints its header, is skipped under metadata_only, and otherwise is dumped;
a failing dump aborts the remaining blocks. -/
def processCols (flags : DumpFlags) : List ColBlock → StatusCode × List BlockReport
  | [] => (.ok, [])
  | cb :: rest =>
    if flags.metadataOnly then
      let r := processCols flags rest
      (r.1, .columnHeaderOnly :: r.2)
    else if cb.openOk then
      let r := processCols flags rest
      (r.1, .columnDumped :: r.2)
    else (.corruption, [.columnHeaderOnly])

/-- Embeds the delta block loops of DumpRowSetInternal: each block of the
given direction is dumped in order and a failing dump aborts the rest. -/
def processDeltas (flags : DumpFlags) (numRows ncols : Nat) (dt : DeltaType) :
    List DeltaBlock → StatusCode × List BlockReport
  | [] => (.ok, [])
  | b :: rest =>
    let out := DumpDeltaCFileBlockInternal flags numRows ncols b dt
    if out.status = .ok then
      let r := processDeltas flags numRows ncols dt rest
      (r.1, .delta dt out :: r.2)
    else (out.status, [.delta dt out])

/-- Embeds DumpRowSetInternal: dump the column blocks, then the UNDO delta
blocks, then the REDO delta blocks, propagating the first failure. -/
def DumpRowSetInternal (flags : DumpFlags) (ncols : Nat) (rs : RowSetMeta) :
    StatusCode × List BlockReport :=
  let c := processCols flags rs.colBlocks
  if c.1 ≠ .ok then c
  else
    let u := processDeltas flags rs.numRows ncols .UNDO rs.undoBlocks
    if u.1 ≠ .ok then (u.1, c.2 ++ u.2)
    else
      let r := processDeltas flags rs.numRows ncols .REDO rs.redoBlocks
      (r.1, c.2 ++ u.2 ++ r.2)

/-- Tablet descriptor as the dump reads it: the rowset list in order. -/
structure TabletMeta where
  rowsets : List RowSetMeta
deriving DecidableEq

/-- Embeds the rowset filter loop of DumpRowSet: the first rowset whose
persisted metadata id equals the flag value, if any. -/
def rowsetSelectedByFilter (meta : TabletMeta) (v : Int) : Option RowSetMeta :=
  meta.rowsets.find? (fun rs => decide (rs.id = v))

/-- Embeds the dump-all branch of DumpRowSet: dump every rowset in order,
printing an ordinal index starting at zero before each, aborting on the
first failure. -/
def dumpAllAux (flags : DumpFlags) (ncols : Nat) :
    Nat → List RowSetMeta → StatusCode × List (Nat × RowSetMeta × List BlockReport)
  | _, [] => (.ok, [])
  | idx, rs :: rest =>
    let d := DumpRowSetInternal flags ncols rs
    if d.1 = .ok then
      let r := dumpAllAux flags ncols (idx + 1) rest
      (r.1, (idx, rs, d.2) :: r.2)
    else (d.1, [(idx, rs, d.2)])

/-- The ordinal numbering the dump-all path prints: each dumped rowset
paired with the index printed before it. -/
def ordinalNumbered (flags : DumpFlags) (ncols : Nat)
    (rowsets : List RowSetMeta) : List (Nat × RowSetMeta) :=
  (dumpAllAux flags ncols 0 rowsets).2.map (fun t => (t.1, t.2.1))

/-- Embeds DumpRowSet: an empty rowset list reports success; a rowset index
flag other than the default dumps only the rowset the filter selects and is
InvalidArgument when none matches; the default flag value dumps all rowsets
with printed ordinal numbers.  Each output entry records the printed
ordinal, if any, the rowset and its block reports. -/
def DumpRowSet (flags : DumpFlags) (rowsetIndexFlag : Int) (ncols : Nat)
    (meta : TabletMeta) : StatusCode × List (Option Nat × RowSetMeta × List BlockReport) :=
  if meta.rowsets = [] then (.ok, [])
  else if rowsetIndexFlag ≠ -1 then
    match rowsetSelectedByFilter meta rowsetIndexFlag with
    | some rs =>
      let d := DumpRowSetInternal flags ncols rs
      (d.1, [(none, rs, d.2)])
    | none => (.invalidArgument, [])
  else
    let r := dumpAllAux flags ncols 0 meta.rowsets
    (r.1, r.2.map (fun t => (some t.1, t.2.1, t.2.2)))

/-- Overwrites one row-column slot of a batch buffer with a value. -/
def setSlot (batch : List (List (Option Int))) (row col : Nat) (v : Int) :
    List (List (Option Int)) :=
  match batch, row with
  | [], _ => []
  | r :: rest, 0 => (r.set col (some v)) :: rest
  | r :: rest, row + 1 => r :: setSlot rest row col v

/-- Follows the words of the spec, for comparison with the embedded dump:
the materialized batch for rows lo to lo plus n equals the base column
values of those rows transformed by applying, in row-position order, every
delta entry visible under the snapshot to the corresponding row and column
slot of the batch buffer. -/
def specBatchForRange (base : List (List Int)) (entries : List DeltaEntry)
    (lo n : Nat) : List (List (Option Int)) :=
  let start := ((base.drop lo).take n).map (fun r => r.map some)
  (entries.filter (fun e => decide (lo ≤ e.rowIdx ∧ e.rowIdx < lo + n))).foldl
    (fun b e => setSlot b (e.rowIdx - lo) e.colIdx e.value) start

/-- Follows the words of the spec: all materialized batches of one delta
block dump, one per batch window of the loop. -/
def specMergedBatches (base : List (List Int)) (entries : List DeltaEntry)
    (batches : List (Nat × List DeltaEntry)) : List (List (List (Option Int))) :=
  (batchStarts 0 batches).map (fun p => specBatchForRange base entries p.1 p.2)
where
  batchStarts : Nat → List (Nat × List DeltaEntry) → List (Nat × Nat)
    | _, [] => []
    | lo, b :: rest => (lo, b.1) :: batchStarts (lo + b.1) rest

/-- True when a peer string fails to parse. -/
def parseFails (s : Str) : Bool :=
  match ParsePeerString s with
  | .error _ => true
  | .ok _ => false

/-- Concrete tablet id for example runs. -/
def tidX : Str := ['t', '1']

/-- Concrete persisted consensus metadata record holding one peer. -/
def pbX : CMetaPB := ⟨3, ⟨7, [⟨.voter, ['a'], ⟨['h'], 9⟩⟩]⟩⟩

/-- File system holding only the consensus metadata file of tidX. -/
def fsX : FileSys := ⟨[(.cmeta tidX, .cmetaBytes pbX)]⟩

/-- File system where the backup path for timestamp 5 already exists. -/
def fsY : FileSys := ⟨[(.cmeta tidX, .cmetaBytes pbX), (.backup tidX 5, .corrupted)]⟩

/-- Oracles with clock value 5 and every external operation succeeding. -/
def oX : Oracles := ⟨5, true, true, true⟩

/-- A well-formed concrete peer argument. -/
def peerArgX : Str := ['u', ':', 'h', ':', '9']

/-- A delta block that opens and decodes with zero entries. -/
def emptyUndoBlk : DeltaBlock := ⟨true, []⟩

/-- A sibling delta block with one entry. -/
def redoBlkX : DeltaBlock := ⟨true, [⟨0, 0, 2⟩]⟩

/-- Concrete rowset with an empty UNDO block and a sibling REDO block. -/
def rsW : RowSetMeta := ⟨3, 1, [], [emptyUndoBlk], [redoBlkX]⟩

/-- Concrete rowset with persisted id 1, sitting at ordinal position 0. -/
def rsA : RowSetMeta := ⟨1, 0, [], [], []⟩

/-- Concrete rowset with persisted id 0, sitting at ordinal position 1. -/
def rsB : RowSetMeta := ⟨0, 0, [], [], []⟩

/-- Concrete rowset with persisted id 3. -/
def rsC : RowSetMeta := ⟨3, 0, [], [], []⟩

/-- Default dump flags: full dump, no row limit. -/
def flagsX : DumpFlags := ⟨false, 0, false⟩

/- Helper lemmas -/

theorem FileSys.lookup_write_self (fs : FileSys) (p : FPath) (c : FileContent) :
    (fs.write p c).lookup p = some c := by
  simp [FileSys.lookup, FileSys.write, List.find?]

theorem FileSys.lookup_write_ne (fs : FileSys) (p q : FPath) (c : FileContent)
    (h : q ≠ p) : (fs.write p c).lookup q = fs.lookup q := by
  simp [FileSys.lookup, FileSys.write, List.find?, Ne.symm h]

theorem deltaDumpLoop_sizes_sum (flag : Int) (total : Nat) (entries : List DeltaEntry) :
    ∀ fuel nrows, total - nrows ≤ fuel →
      ((deltaDumpLoop flag total entries fuel nrows).map Prod.fst).sum =
        (if 0 < flag then min flag.toNat total else total) - nrows := by
  intro fuel
  induction fuel with
  | zero =>
    intro nrows h
    simp only [deltaDumpLoop, List.map_nil, List.sum_nil]
    split <;> omega
  | succ fuel ih =>
    intro nrows h
    rw [deltaDumpLoop]
    by_cases hlt : nrows < total
    · rw [if_pos hlt]
      by_cases hbrk : 0 < flag ∧ flag.toNat - nrows = 0
      · rw [if_pos hbrk]
        simp only [List.map_nil, List.sum_nil]
        rw [if_pos hbrk.1]
        omega
      · rw [if_neg hbrk]
        simp only [List.map_cons, List.sum_cons]
        by_cases hf : 0 < flag
        · simp only [if_pos hf, kRowsPerBlock]
          rw [ih (nrows + min (min (flag.toNat - nrows) 100) (total - nrows)) (by omega)]
          rw [if_pos hf]
          omega
        · simp only [if_neg hf, kRowsPerBlock]
          rw [ih (nrows + min 100 (total - nrows)) (by omega)]
          rw [if_neg hf]
          omega
    · rw [if_neg hlt]
      simp only [List.map_nil, List.sum_nil]
      split <;> omega

theorem deltaDumpLoop_sizes_le (flag : Int) (total : Nat) (entries : List DeltaEntry) :
    ∀ fuel nrows s, s ∈ (deltaDumpLoop flag total entries fuel nrows).map Prod.fst →
      s ≤ kRowsPerBlock := by
  intro fuel
  induction fuel with
  | zero =>
    intro nrows s hs
    simp only [deltaDumpLoop, List.map_nil, List.not_mem_nil] at hs
  | succ fuel ih =>
    intro nrows s hs
    rw [deltaDumpLoop] at hs
    by_cases hlt : nrows < total
    · rw [if_pos hlt] at hs
      by_cases hbrk : 0 < flag ∧ flag.toNat - nrows = 0
      · rw [if_pos hbrk] at hs
        simp at hs
      · rw [if_neg hbrk] at hs
        simp only [List.map_cons, List.mem_cons] at hs
        rcases hs with hs | hs
        · subst hs
          simp only [kRowsPerBlock]
          split <;> omega
        · exact ih _ s hs
    · rw [if_neg hlt] at hs
      simp at hs

theorem deltaDumpLoop_sizes_unlimited (flag : Int) (hflag : flag ≤ 0) (total : Nat)
    (entries : List DeltaEntry) :
    ∀ fuel nrows, total - nrows ≤ fuel →
      ((deltaDumpLoop flag total entries fuel nrows).map Prod.fst) =
        List.replicate ((total - nrows) / kRowsPerBlock) kRowsPerBlock ++
          (if (total - nrows) % kRowsPerBlock = 0 then []
           else [(total - nrows) % kRowsPerBlock]) := by
  intro fuel
  induction fuel with
  | zero =>
    intro nrows h
    have h0 : total - nrows = 0 := by omega
    simp [deltaDumpLoop, h0, kRowsPerBlock]
  | succ fuel ih =>
    intro nrows h
    have hf : ¬ 0 < flag := by omega
    rw [deltaDumpLoop]
    by_cases hlt : nrows < total
    · have hbrk : ¬ (0 < flag ∧ flag.toNat - nrows = 0) := by omega
      rw [if_pos hlt, if_neg hbrk]
      simp only [if_neg hf, List.map_cons]
      by_cases hm : kRowsPerBlock ≤ total - nrows
      · have hmin : min kRowsPerBlock (total - nrows) = kRowsPerBlock :=
          Nat.min_eq_left hm
        rw [hmin, ih (nrows + kRowsPerBlock) (by simp only [kRowsPerBlock] at *; omega)]
        simp only [kRowsPerBlock] at hm ⊢
        have h1 : total - (nrows + 100) = (total - nrows) - 100 := by omega
        have h2 : (total - nrows) / 100 = ((total - nrows) - 100) / 100 + 1 := by omega
        have h3 : (total - nrows) % 100 = ((total - nrows) - 100) % 100 := by omega
        rw [h1, h2, h3, List.replicate_succ]
        simp
      · have hmin : min kRowsPerBlock (total - nrows) = total - nrows := by
          simp only [kRowsPerBlock] at *; omega
        rw [hmin, ih (nrows + (total - nrows)) (by omega)]
        simp only [kRowsPerBlock] at hm ⊢
        have h1 : total - (nrows + (total - nrows)) = 0 := by omega
        have h2 : (total - nrows) / 100 = 0 := by omega
        have h3 : (total - nrows) % 100 = total - nrows := by omega
        have h4 : ¬ (total - nrows = 0) := by omega
        rw [h1, h2, h3]
        simp [h4]
    · rw [if_neg hlt]
      have h0 : total - nrows = 0 := by omega
      simp [h0, kRowsPerBlock]

theorem filter_window_of_ge (l : List DeltaEntry) (a c : Nat) (h : c ≤ a) :
    l.filter (fun e => decide (a ≤ e.rowIdx ∧ e.rowIdx < c)) = [] := by
  apply List.filter_eq_nil_iff.mpr
  intro e _
  simp only [decide_eq_true_eq]
  omega

theorem filter_window_append (a b c : Nat) (hab : a ≤ b) (hbc : b ≤ c) :
    ∀ l : List DeltaEntry, List.Pairwise (fun x y => x.rowIdx ≤ y.rowIdx) l →
      l.filter (fun e => decide (a ≤ e.rowIdx ∧ e.rowIdx < b)) ++
        l.filter (fun e => decide (b ≤ e.rowIdx ∧ e.rowIdx < c)) =
        l.filter (fun e => decide (a ≤ e.rowIdx ∧ e.rowIdx < c)) := by
  intro l
  induction l with
  | nil => intro _; simp
  | cons x t ih =>
    intro hs
    rw [List.pairwise_cons] at hs
    obtain ⟨hx, ht⟩ := hs
    simp only [List.filter_cons, decide_eq_true_eq]
    by_cases h1 : a ≤ x.rowIdx ∧ x.rowIdx < b
    · have h2 : ¬ (b ≤ x.rowIdx ∧ x.rowIdx < c) := by omega
      have h3 : a ≤ x.rowIdx ∧ x.rowIdx < c := by omega
      rw [if_pos h1, if_neg h2, if_pos h3, List.cons_append, ih ht]
    · by_cases h2 : b ≤ x.rowIdx ∧ x.rowIdx < c
      · have h3 : a ≤ x.rowIdx ∧ x.rowIdx < c := by omega
        rw [if_neg h1, if_pos h2, if_pos h3]
        have hf1 : t.filter (fun e => decide (a ≤ e.rowIdx ∧ e.rowIdx < b)) = [] := by
          apply List.filter_eq_nil_iff.mpr
          intro e he
          have := hx e he
          simp only [decide_eq_true_eq]
          omega
        have hf2 : t.filter (fun e => decide (b ≤ e.rowIdx ∧ e.rowIdx < c)) =
            t.filter (fun e => decide (a ≤ e.rowIdx ∧ e.rowIdx < c)) := by
          apply List.filter_congr
          intro e he
          have := hx e he
          rw [decide_eq_decide]
          constructor <;> (intro; omega)
        rw [hf1, hf2]
        simp
      · have h3 : ¬ (a ≤ x.rowIdx ∧ x.rowIdx < c) := by omega
        rw [if_neg h1, if_neg h2, if_neg h3]
        exact ih ht

theorem deltaDumpLoop_join_collected (flag : Int) (total : Nat)
    (entries : List DeltaEntry)
    (hs : List.Pairwise (fun x y => x.rowIdx ≤ y.rowIdx) entries) :
    ∀ fuel nrows, total - nrows ≤ fuel →
      ((deltaDumpLoop flag total entries fuel nrows).map Prod.snd).flatten =
        entries.filter (fun e => decide (nrows ≤ e.rowIdx ∧
          e.rowIdx < (if 0 < flag then min flag.toNat total else total))) := by
  intro fuel
  induction fuel with
  | zero =>
    intro nrows h
    simp only [deltaDumpLoop, List.map_nil, List.flatten_nil]
    symm
    apply filter_window_of_ge
    split <;> omega
  | succ fuel ih =>
    intro nrows h
    rw [deltaDumpLoop]
    by_cases hlt : nrows < total
    · rw [if_pos hlt]
      by_cases hbrk : 0 < flag ∧ flag.toNat - nrows = 0
      · rw [if_pos hbrk]
        simp only [List.map_nil, List.flatten_nil]
        symm
        apply filter_window_of_ge
        rw [if_pos hbrk.1]
        omega
      · rw [if_neg hbrk]
        simp only [List.map_cons, List.flatten_cons]
        by_cases hf : 0 < flag
        · simp only [if_pos hf, kRowsPerBlock]
          rw [ih (nrows + min (min (flag.toNat - nrows) 100) (total - nrows)) (by omega)]
          unfold collectWindow
          rw [if_pos hf]
          apply filter_window_append _ _ _ (by omega) (by omega) _ hs
        · simp only [if_neg hf, kRowsPerBlock]
          rw [ih (nrows + min 100 (total - nrows)) (by omega)]
          unfold collectWindow
          rw [if_neg hf]
          apply filter_window_append _ _ _ (by omega) (by omega) _ hs
    · rw [if_neg hlt]
      simp only [List.map_nil, List.flatten_nil]
      symm
      apply filter_window_of_ge
      split <;> omega

theorem dumpDelta_status_ok (flags : DumpFlags) (numRows ncols : Nat)
    (blk : DeltaBlock) (dt : DeltaType) (hb : blk.openOk = true) :
    (DumpDeltaCFileBlockInternal flags numRows ncols blk dt).status = .ok := by
  unfold DumpDeltaCFileBlockInternal
  rw [hb]
  simp only [Bool.true_eq_false, if_false]
  split
  · rfl
  · split <;> rfl

theorem dumpDelta_snapUsed (flags : DumpFlags) (numRows ncols : Nat)
    (blk : DeltaBlock) (dt : DeltaType) :
    (DumpDeltaCFileBlockInternal flags numRows ncols blk dt).snapUsed =
      if blk.openOk = true ∧ flags.metadataOnly = false
      then some (snapshotForDeltaType dt) else none := by
  unfold DumpDeltaCFileBlockInternal
  cases hb : blk.openOk <;> cases hm : flags.metadataOnly <;> simp [hb, hm]
  split <;> simp

theorem processCols_all_ok (flags : DumpFlags) (hmo : flags.metadataOnly = false) :
    ∀ cbs : List ColBlock, (∀ cb ∈ cbs, cb.openOk = true) →
      processCols flags cbs = (.ok, cbs.map (fun _ => .columnDumped)) := by
  intro cbs
  induction cbs with
  | nil => intro _; rfl
  | cons cb rest ih =>
    intro h
    have hcb : cb.openOk = true := h cb (List.mem_cons_self cb rest)
    simp only [processCols, hmo, hcb, Bool.false_eq_true, if_false, if_true,
      List.map_cons]
    rw [ih (fun c hc => h c (List.mem_cons_of_mem cb hc))]

theorem processDeltas_all_ok (flags : DumpFlags) (numRows ncols : Nat)
    (dt : DeltaType) :
    ∀ bs : List DeltaBlock, (∀ b ∈ bs, b.openOk = true) →
      processDeltas flags numRows ncols dt bs =
        (.ok, bs.map (fun b =>
          .delta dt (DumpDeltaCFileBlockInternal flags numRows ncols b dt))) := by
  intro bs
  induction bs with
  | nil => intro _; rfl
  | cons b rest ih =>
    intro h
    have hb : b.openOk = true := h b (List.mem_cons_self b rest)
    simp only [processDeltas, dumpDelta_status_ok flags numRows ncols b dt hb,
      if_true, List.map_cons]
    rw [ih (fun c hc => h c (List.mem_cons_of_mem b hc))]

theorem dumpRowSetInternal_all_ok (flags : DumpFlags) (ncols : Nat)
    (rs : RowSetMeta) (hmo : flags.metadataOnly = false)
    (hc : ∀ cb ∈ rs.colBlocks, cb.openOk = true)
    (hd : ∀ b ∈ rs.undoBlocks ++ rs.redoBlocks, b.openOk = true) :
    DumpRowSetInternal flags ncols rs =
      (.ok,
        rs.colBlocks.map (fun _ => .columnDumped) ++
        rs.undoBlocks.map (fun b =>
          .delta .UNDO (DumpDeltaCFileBlockInternal flags rs.numRows ncols b .UNDO)) ++
        rs.redoBlocks.map (fun b =>
          .delta .REDO (DumpDeltaCFileBlockInternal flags rs.numRows ncols b .REDO))) := by
  have hu : ∀ b ∈ rs.undoBlocks, b.openOk = true := by
    intro b hb
    exact hd b (List.mem_append_left _ hb)
  have hr : ∀ b ∈ rs.redoBlocks, b.openOk = true := by
    intro b hb
    exact hd b (List.mem_append_right _ hb)
  unfold DumpRowSetInternal
  rw [processCols_all_ok flags hmo rs.colBlocks hc,
    processDeltas_all_ok flags rs.numRows ncols .UNDO rs.undoBlocks hu,
    processDeltas_all_ok flags rs.numRows ncols .REDO rs.redoBlocks hr]
  simp [List.append_assoc]

theorem hostPort_parseString_error_code (s : Str) (d : Nat) (e : StatusCode)
    (h : HostPort.parseString s d = .error e) : e = .invalidArgument := by
  unfold HostPort.parseString at h
  split at h
  · exact absurd h (by simp)
  · split at h
    · split at h
      · exact absurd h (by simp)
      · simpa using h.symm
    · simpa using h.symm
  · simpa using h.symm

theorem parseHostPortString_error_code (s : Str) (e : StatusCode)
    (h : ParseHostPortString s = .error e) : e = .invalidArgument := by
  unfold ParseHostPortString at h
  cases hps : HostPort.parseString s 0 with
  | error e2 =>
    rw [hps] at h
    simp only [Except.error.injEq] at h
    rw [← h]
    exact hostPort_parseString_error_code s 0 e2 hps
  | ok hp =>
    rw [hps] at h
    by_cases hp0 : hp.port = 0
    · simp only [hp0, if_pos, Except.error.injEq] at h
      exact h.symm
    · simp [hp0] at h

theorem parsePeerString_error_code (s : Str) (e : StatusCode)
    (h : ParsePeerString s = .error e) : e = .invalidArgument := by
  unfold ParsePeerString at h
  cases hsp : splitFirstColon s with
  | none =>
    rw [hsp] at h
    simp only [Except.error.injEq] at h
    exact h.symm
  | some pr =>
    obtain ⟨u, rest⟩ := pr
    rw [hsp] at h
    dsimp only at h
    cases hhp : ParseHostPortString rest with
    | error e2 =>
      rw [hhp] at h
      simp only [Except.error.injEq] at h
      rw [← h]
      exact parseHostPortString_error_code rest e2 hhp
    | ok hp =>
      rw [hhp] at h
      simp at h

theorem parsePeers_any_fail :
    ∀ args : List Str, args.any parseFails = true →
      parsePeers args = .error .invalidArgument := by
  intro args
  induction args with
  | nil => intro h; simp at h
  | cons a rest ih =>
    intro h
    unfold parsePeers
    cases hpa : ParsePeerString a with
    | error e =>
      rw [parsePeerString_error_code a e hpa]
    | ok p =>
      have : rest.any parseFails = true := by
        simp only [List.any_cons, Bool.or_eq_true] at h
        rcases h with h | h
        · unfold parseFails at h
          rw [hpa] at h
          simp at h
        · exact h
      rw [ih this]

theorem dumpDelta_batches (flags : DumpFlags) (numRows ncols : Nat)
    (blk : DeltaBlock) (dt : DeltaType) (hb : blk.openOk = true)
    (hm : flags.metadataOnly = false) (he : blk.entries ≠ []) :
    (DumpDeltaCFileBlockInternal flags numRows ncols blk dt).batches =
      deltaDumpLoop flags.nrows numRows blk.entries numRows 0 := by
  unfold DumpDeltaCFileBlockInternal
  simp [hb, hm, he]

theorem dumpDelta_buffers (flags : DumpFlags) (numRows ncols : Nat)
    (blk : DeltaBlock) (dt : DeltaType) (hb : blk.openOk = true)
    (hm : flags.metadataOnly = false) (he : blk.entries ≠ []) :
    (DumpDeltaCFileBlockInternal flags numRows ncols blk dt).buffers =
      (deltaDumpLoop flags.nrows numRows blk.entries numRows 0).map
        (fun b => List.replicate b.1 (List.replicate ncols (none : Option Int))) := by
  unfold DumpDeltaCFileBlockInternal
  simp [hb, hm, he]

/- Claim theorems -/

/-- C1: the claim says a rewrite invoked with an empty peer list fails with
InvalidArgument and performs zero file I/O.  The code only guards the case
with a DCHECK that release builds compile out, so the run evaluated here,
an empty peer list against an existing consensus metadata file with every
external operation succeeding, returns OK, creates the backup file, and
overwrites the primary file with a configuration holding zero peers,
contradicting both the claim and the intent of the DCHECK in the source. -/
theorem c1_empty_peer_list_performs_file_io :
    (rewriteRaftConfig tidX [] fsX oX).status = .ok ∧
    (rewriteRaftConfig tidX [] fsX oX).status ≠ .invalidArgument ∧
    (rewriteRaftConfig tidX [] fsX oX).trace =
      [backupOkEv tidX 5, .flushCMeta (.cmeta tidX) ⟨3, ⟨7, []⟩⟩ true true] ∧
    (rewriteRaftConfig tidX [] fsX oX).fs.lookup (.backup tidX 5) =
      some (.cmetaBytes pbX) ∧
    (rewriteRaftConfig tidX [] fsX oX).fs.lookup (.cmeta tidX) =
      some (.cmetaBytes ⟨3, ⟨7, []⟩⟩) := by
  refine ⟨rfl, by decide, rfl, rfl, rfl⟩

/-- C4: peer-string parsing splits at the first colon into an identifier
and a host-port remainder; the example peer string parses to identifier
abc123, host node1 and port 9010; a zero port fails with InvalidArgument;
and any malformed peer string makes RewriteRaftConfig fail with
InvalidArgument before any file event, with the file system unchanged. -/
theorem c4_peer_string_parsing :
    (ParsePeerString "abc123:node1:9010".toList =
      .ok ("abc123".toList, ⟨"node1".toList, 9010⟩)) ∧
    (ParsePeerString "abc123:node1:0".toList = .error .invalidArgument) ∧
    (∀ (tid : Str) (args : List Str) (fs : FileSys) (o : Oracles),
      args.any parseFails = true →
      rewriteRaftConfig tid args fs o = ⟨.invalidArgument, [], fs⟩) := by
  refine ⟨rfl, rfl, ?_⟩
  intro tid args fs o h
  unfold rewriteRaftConfig
  rw [parsePeers_any_fail args h]

/-- C4 witness: a concrete malformed peer argument, a peer with port 0,
makes the rewrite fail with InvalidArgument, an empty event trace and an
unchanged file system. -/
theorem c4_peer_string_parsing_witness :
    rewriteRaftConfig tidX ["abc123:node1:0".toList] fsX oX =
      ⟨.invalidArgument, [], fsX⟩ :=
  c4_peer_string_parsing.2.2 tidX ["abc123:node1:0".toList] fsX oX (by decide)

/-- C7: the dump path consumes exactly two snapshot forms: a REDO delta
block is dumped under the all-visible snapshot and an UNDO delta block
under the none-visible snapshot, and the path never constructs any other
snapshot form such as a point-in-time snapshot. -/
theorem c7_snapshot_two_forms :
    snapshotForDeltaType .REDO = .allVisible ∧
    snapshotForDeltaType .UNDO = .noneVisible ∧
    (∀ (flags : DumpFlags) (numRows ncols : Nat) (blk : DeltaBlock) (dt : DeltaType),
      (DumpDeltaCFileBlockInternal flags numRows ncols blk dt).snapUsed = none ∨
      (DumpDeltaCFileBlockInternal flags numRows ncols blk dt).snapUsed =
        some (snapshotForDeltaType dt)) ∧
    (∀ (dt : DeltaType) (t : Nat), snapshotForDeltaType dt ≠ .pointInTime t) := by
  refine ⟨rfl, rfl, ?_, ?_⟩
  · intro flags numRows ncols blk dt
    rw [dumpDelta_snapUsed]
    split
    · right; rfl
    · left; rfl
  · intro dt t
    cases dt <;> simp [snapshotForDeltaType]

/-- C6: for a rowset with 250 base rows, fixed batch size 100 and a
requested limit of 120 rows, the delta dump materializes exactly two
batches of sizes 100 and 20; in general, under a positive row limit, the
batch sizes sum to the minimum of the limit and the row count, and no
batch ever exceeds the fixed batch size, so the final batch shrinks to the
remainder instead of over-reading. -/
theorem c6_final_batch_shrinks :
    (((DumpDeltaCFileBlockInternal ⟨false, 120, false⟩ 250 1 ⟨true, [⟨0, 0, 1⟩]⟩
        .REDO).batches.map Prod.fst) = [100, 20]) ∧
    (∀ (flags : DumpFlags) (total ncols : Nat) (blk : DeltaBlock) (dt : DeltaType),
      blk.openOk = true → flags.metadataOnly = false → blk.entries ≠ [] →
      0 < flags.nrows →
      (((DumpDeltaCFileBlockInternal flags total ncols blk dt).batches.map
          Prod.fst).sum = min flags.nrows.toNat total) ∧
      (∀ s ∈ (DumpDeltaCFileBlockInternal flags total ncols blk dt).batches.map
          Prod.fst, s ≤ kRowsPerBlock)) := by
  refine ⟨by decide, ?_⟩
  intro flags total ncols blk dt hb hm he hpos
  rw [dumpDelta_batches flags total ncols blk dt hb hm he]
  constructor
  · rw [deltaDumpLoop_sizes_sum flags.nrows total blk.entries total 0 (by omega)]
    rw [if_pos hpos]
    omega
  · intro s hsm
    exact deltaDumpLoop_sizes_le flags.nrows total blk.entries total 0 s hsm

/-- C6 witness: the general bound instantiated at the concrete scenario,
a 250-row rowset with limit 120, sums the batch sizes to 120. -/
theorem c6_final_batch_shrinks_witness :
    ((DumpDeltaCFileBlockInternal ⟨false, 120, false⟩ 250 1 ⟨true, [⟨0, 0, 1⟩]⟩
      .REDO).batches.map Prod.fst).sum = min (Int.toNat 120) 250 :=
  (c6_final_batch_shrinks.2 ⟨false, 120, false⟩ 250 1 ⟨true, [⟨0, 0, 1⟩]⟩ .REDO
    rfl rfl (by decide) (by decide)).1

/-- C9: a row-limit flag of zero or any negative value means unlimited:
the delta dump loop then covers every row of the rowset, in batches of the
fixed size with only the final batch smaller, while a strictly positive
limit bounds the processed rows by the limit. -/
theorem c9_nonpositive_limit_means_unlimited :
    ∀ (flags : DumpFlags) (total ncols : Nat) (blk : DeltaBlock) (dt : DeltaType),
      flags.nrows ≤ 0 → blk.openOk = true → flags.metadataOnly = false →
      blk.entries ≠ [] →
      (((DumpDeltaCFileBlockInternal flags total ncols blk dt).batches.map
          Prod.fst) =
        List.replicate (total / kRowsPerBlock) kRowsPerBlock ++
          (if total % kRowsPerBlock = 0 then [] else [total % kRowsPerBlock])) ∧
      (((DumpDeltaCFileBlockInternal flags total ncols blk dt).batches.map
          Prod.fst).sum = total) ∧
      (∀ posFlag : Int, 0 < posFlag →
        ((deltaDumpLoop posFlag total blk.entries total 0).map Prod.fst).sum =
          min posFlag.toNat total) := by
  intro flags total ncols blk dt hnp hb hm he
  rw [dumpDelta_batches flags total ncols blk dt hb hm he]
  refine ⟨?_, ?_, ?_⟩
  · have := deltaDumpLoop_sizes_unlimited flags.nrows hnp total blk.entries total 0
      (by omega)
    simpa using this
  · rw [deltaDumpLoop_sizes_sum flags.nrows total blk.entries total 0 (by omega)]
    rw [if_neg (by omega)]
    omega
  · intro posFlag hpos
    rw [deltaDumpLoop_sizes_sum posFlag total blk.entries total 0 (by omega)]
    rw [if_pos hpos]
    omega

/-- C9 witness: with the zero default limit a 250-row rowset is fully
processed in batches of 100, 100 and 50. -/
theorem c9_nonpositive_limit_means_unlimited_witness :
    ((DumpDeltaCFileBlockInternal ⟨false, 0, false⟩ 250 1 ⟨true, [⟨0, 0, 1⟩]⟩
      .REDO).batches.map Prod.fst) =
      List.replicate (250 / kRowsPerBlock) kRowsPerBlock ++
        (if 250 % kRowsPerBlock = 0 then [] else [250 % kRowsPerBlock]) :=
  (c9_nonpositive_limit_means_unlimited ⟨false, 0, false⟩ 250 1
    ⟨true, [⟨0, 0, 1⟩]⟩ .REDO (by decide) rfl rfl (by decide)).1

/-- C2: in every run of the rewriter, the primary consensus metadata file
is never overwritten before a successful verbatim backup copy at the path
embedding the creation timestamp; whenever an overwrite occurs, the backup
file holds exactly the prior primary content; every attempted copy targets
the timestamped backup path in create-non-existing mode with sync on
close; and a failed backup copy aborts the run with the file system
untouched and a non-OK status. -/
theorem c2_backup_precedes_overwrite :
    ∀ (tid : Str) (args : List Str) (fs : FileSys) (o : Oracles),
      (flushBeforeBackup (backupOkEv tid o.nowMicros)
        (rewriteRaftConfig tid args fs o).trace = false) ∧
      ((rewriteRaftConfig tid args fs o).trace.any isFlushEv = true →
        ∃ old, fs.lookup (.cmeta tid) = some old ∧
          backupOkEv tid o.nowMicros ∈ (rewriteRaftConfig tid args fs o).trace ∧
          (rewriteRaftConfig tid args fs o).fs.lookup (.backup tid o.nowMicros) =
            some old) ∧
      (∀ e ∈ (rewriteRaftConfig tid args fs o).trace,
        e = .copyFile (.cmeta tid) (.backup tid o.nowMicros) true true false →
        (rewriteRaftConfig tid args fs o).fs = fs ∧
        (rewriteRaftConfig tid args fs o).status ≠ .ok) ∧
      (∀ (src dst : FPath) (cne soc okb : Bool),
        Event.copyFile src dst cne soc okb ∈ (rewriteRaftConfig tid args fs o).trace →
        src = .cmeta tid ∧ dst = .backup tid o.nowMicros ∧ cne = true ∧ soc = true) := by
  intro tid args fs o
  have hne : (FPath.backup tid o.nowMicros) ≠ (FPath.cmeta tid) := by
    intro hc
    exact FPath.noConfusion hc
  unfold rewriteRaftConfig
  cases hpp : parsePeers args with
  | error e =>
    simp [flushBeforeBackup]
  | ok peers =>
    simp only [hpp]
    cases hlk : fs.lookup (FPath.cmeta tid) with
    | none =>
      dsimp only
      refine ⟨?_, ?_, ?_, ?_⟩
      · simp [flushBeforeBackup, isFlushEv, backupOkEv]
      · intro hany
        simp [isFlushEv] at hany
      · intro e he heq
        exact ⟨by simp, by simp⟩
      · intro src dst cne soc okb hmem
        simp only [List.mem_singleton, Event.copyFile.injEq] at hmem
        exact ⟨hmem.1, hmem.2.1, hmem.2.2.1, hmem.2.2.2.1⟩
    | some old =>
      dsimp only
      by_cases hbk : (fs.lookup (FPath.backup tid o.nowMicros)).isSome
      · rw [if_pos hbk]
        refine ⟨?_, ?_, ?_, ?_⟩
        · simp [flushBeforeBackup, isFlushEv, backupOkEv]
        · intro hany
          simp [isFlushEv] at hany
        · intro e he heq
          exact ⟨by simp, by simp⟩
        · intro src dst cne soc okb hmem
          simp only [List.mem_singleton, Event.copyFile.injEq] at hmem
          exact ⟨hmem.1, hmem.2.1, hmem.2.2.1, hmem.2.2.2.1⟩
      · rw [if_neg hbk]
        cases hco : o.copyOk with
        | false =>
          simp only [Bool.true_eq_false, Bool.false_eq_true, if_true, if_false]
          try dsimp only
          refine ⟨?_, ?_, ?_, ?_⟩
          · simp [flushBeforeBackup, isFlushEv, backupOkEv]
          · intro hany
            simp [isFlushEv] at hany
          · intro e he heq
            exact ⟨by simp, by simp⟩
          · intro src dst cne soc okb hmem
            simp only [List.mem_singleton, Event.copyFile.injEq] at hmem
            exact ⟨hmem.1, hmem.2.1, hmem.2.2.1, hmem.2.2.2.1⟩
        | true =>
          simp only [Bool.true_eq_false, Bool.false_eq_true, if_true, if_false]
          try dsimp only
          cases old with
          | corrupted =>
            try simp only [Bool.true_eq_false, Bool.false_eq_true, if_true, if_false]
            try dsimp only
            refine ⟨?_, ?_, ?_, ?_⟩
            · simp [flushBeforeBackup, isFlushEv, backupOkEv]
            · intro hany
              simp [isFlushEv] at hany
            · intro e he heq
              rw [List.mem_singleton] at he
              rw [he] at heq
              simp at heq
            · intro src dst cne soc okb hmem
              simp only [List.mem_singleton, Event.copyFile.injEq] at hmem
              exact ⟨hmem.1, hmem.2.1, hmem.2.2.1, hmem.2.2.2.1⟩
          | cmetaBytes pb =>
            try simp only [Bool.true_eq_false, Bool.false_eq_true, if_true, if_false]
            try dsimp only
            cases hlo : o.loadOk with
            | false =>
              try simp only [Bool.true_eq_false, Bool.false_eq_true, if_true, if_false]
              try dsimp only
              refine ⟨?_, ?_, ?_, ?_⟩
              · simp [flushBeforeBackup, isFlushEv, backupOkEv]
              · intro hany
                simp [isFlushEv] at hany
              · intro e he heq
                rw [List.mem_singleton] at he
                rw [he] at heq
                simp at heq
              · intro src dst cne soc okb hmem
                simp only [List.mem_singleton, Event.copyFile.injEq] at hmem
                exact ⟨hmem.1, hmem.2.1, hmem.2.2.1, hmem.2.2.2.1⟩
            | true =>
              try simp only [Bool.true_eq_false, Bool.false_eq_true, if_true, if_false]
              try dsimp only
              cases hfl : o.flushOk with
              | true =>
                try simp only [Bool.true_eq_false, Bool.false_eq_true, if_true, if_false]
                try dsimp only
                refine ⟨?_, ?_, ?_, ?_⟩
                · simp [flushBeforeBackup, isFlushEv, backupOkEv]
                · intro _
                  refine ⟨.cmetaBytes pb, rfl, by simp [backupOkEv], ?_⟩
                  rw [FileSys.lookup_write_ne _ _ _ _ hne,
                    FileSys.lookup_write_self]
                · intro e he heq
                  rw [List.mem_cons, List.mem_singleton] at he
                  rcases he with he | he <;> rw [he] at heq <;> simp at heq
                · intro src dst cne soc okb hmem
                  rw [List.mem_cons, List.mem_singleton] at hmem
                  rcases hmem with hmem | hmem
                  · rw [Event.copyFile.injEq] at hmem
                    exact ⟨hmem.1, hmem.2.1, hmem.2.2.1, hmem.2.2.2.1⟩
                  · exact absurd hmem (by simp)
              | false =>
                try simp only [Bool.true_eq_false, Bool.false_eq_true, if_true, if_false]
                try dsimp only
                refine ⟨?_, ?_, ?_, ?_⟩
                · simp [flushBeforeBackup, isFlushEv, backupOkEv]
                · intro _
                  refine ⟨.cmetaBytes pb, rfl, by simp [backupOkEv], ?_⟩
                  rw [FileSys.lookup_write_ne _ _ _ _ hne,
                    FileSys.lookup_write_self]
                · intro e he heq
                  rw [List.mem_cons, List.mem_singleton] at he
                  rcases he with he | he <;> rw [he] at heq <;> simp at heq
                · intro src dst cne soc okb hmem
                  rw [List.mem_cons, List.mem_singleton] at hmem
                  rcases hmem with hmem | hmem
                  · rw [Event.copyFile.injEq] at hmem
                    exact ⟨hmem.1, hmem.2.1, hmem.2.2.1, hmem.2.2.2.1⟩
                  · exact absurd hmem (by simp)

/-- C2 witness: a successful concrete run leaves the verbatim backup at
the timestamped path with no overwrite before it, and a concrete run where
the backup path already exists aborts with the file system untouched. -/
theorem c2_backup_precedes_overwrite_witness :
    (flushBeforeBackup (backupOkEv tidX 5)
      (rewriteRaftConfig tidX [peerArgX] fsX oX).trace = false) ∧
    ((rewriteRaftConfig tidX [peerArgX] fsX oX).fs.lookup (.backup tidX 5) =
      some (.cmetaBytes pbX)) ∧
    ((rewriteRaftConfig tidX [peerArgX] fsY oX).fs = fsY ∧
      (rewriteRaftConfig tidX [peerArgX] fsY oX).status ≠ .ok) := by
  refine ⟨(c2_backup_precedes_overwrite tidX [peerArgX] fsX oX).1, ?_, ?_⟩
  · obtain ⟨old, h1, h2, h3⟩ :=
      (c2_backup_precedes_overwrite tidX [peerArgX] fsX oX).2.1 (by decide)
    have h4 : fsX.lookup (.cmeta tidX) = some (.cmetaBytes pbX) := rfl
    rw [h1] at h4
    injection h4 with h5
    rw [← h5]
    exact h3
  · exact (c2_backup_precedes_overwrite tidX [peerArgX] fsY oX).2.2.1
      (.copyFile (.cmeta tidX) (.backup tidX 5) true true false) (by decide) rfl

/-- C3 counterexample: the claim says the emitted row batches equal the
base column values transformed by the visible delta entries.  At a one-row
rowset with base value 5 and a single visible REDO entry writing 7, the
batch buffer the dump loop emits does not equal the merged batch the spec
describes: the loop never materializes base values nor applies deltas to
the buffer. -/
theorem c3_counterexample_buffers_not_merged :
    (DumpDeltaCFileBlockInternal ⟨false, 0, true⟩ 1 1 ⟨true, [⟨0, 0, 7⟩]⟩
      .REDO).buffers ≠
      specMergedBatches [[5]] [⟨0, 0, 7⟩]
        (DumpDeltaCFileBlockInternal ⟨false, 0, true⟩ 1 1 ⟨true, [⟨0, 0, 7⟩]⟩
          .REDO).batches := by
  decide

/-- C3 amended: for every rowset and either snapshot, the dump loop
collects exactly the delta entries visible under the snapshot whose row
positions fall below the covered row count, in row-position order, and
prints them; the batch buffer itself is never materialized with base
values nor mutated by deltas, every slot staying unwritten. -/
theorem c3_dump_collects_visible_deltas :
    ∀ (flags : DumpFlags) (total ncols : Nat) (blk : DeltaBlock) (dt : DeltaType),
      blk.openOk = true → flags.metadataOnly = false → blk.entries ≠ [] →
      flags.nrows ≤ 0 →
      List.Pairwise (fun x y => x.rowIdx ≤ y.rowIdx) blk.entries →
      (((DumpDeltaCFileBlockInternal flags total ncols blk dt).batches.map
          Prod.snd).flatten =
        blk.entries.filter (fun e => decide (e.rowIdx < total))) ∧
      (∀ buf ∈ (DumpDeltaCFileBlockInternal flags total ncols blk dt).buffers,
        ∀ row ∈ buf, ∀ slot ∈ row, slot = none) := by
  intro flags total ncols blk dt hb hm he hnp hs
  constructor
  · rw [dumpDelta_batches flags total ncols blk dt hb hm he]
    rw [deltaDumpLoop_join_collected flags.nrows total blk.entries hs total 0
      (by omega)]
    rw [if_neg (by omega)]
    apply List.filter_congr
    intro e he2
    rw [decide_eq_decide]
    constructor
    · intro h
      exact h.2
    · intro h
      exact ⟨Nat.zero_le _, h⟩
  · rw [dumpDelta_buffers flags total ncols blk dt hb hm he]
    intro buf hbuf row hrow slot hslot
    rw [List.mem_map] at hbuf
    obtain ⟨b, _, hb2⟩ := hbuf
    rw [← hb2] at hrow
    have hrep := List.eq_of_mem_replicate hrow
    rw [hrep] at hslot
    exact List.eq_of_mem_replicate hslot

/-- C3 amended witness: a two-row rowset dumped as an UNDO block collects
both sorted entries in row order, and the batch buffer stays unwritten. -/
theorem c3_dump_collects_visible_deltas_witness :
    (((DumpDeltaCFileBlockInternal ⟨false, 0, true⟩ 2 1
        ⟨true, [⟨0, 0, 7⟩, ⟨1, 0, 8⟩]⟩ .UNDO).batches.map Prod.snd).flatten =
      [⟨0, 0, 7⟩, ⟨1, 0, 8⟩]) ∧
    (DumpDeltaCFileBlockInternal ⟨false, 0, true⟩ 2 1
      ⟨true, [⟨0, 0, 7⟩, ⟨1, 0, 8⟩]⟩ .UNDO).buffers = [[[none], [none]]] := by
  obtain ⟨h1, _⟩ := c3_dump_collects_visible_deltas ⟨false, 0, true⟩ 2 1
    ⟨true, [⟨0, 0, 7⟩, ⟨1, 0, 8⟩]⟩ .UNDO rfl rfl (by decide) (by decide)
    (by decide)
  exact ⟨h1.trans (by decide), by decide⟩

/-- C5 counterexample: the claim says a rowset filter matching no rowset
fails with InvalidArgument.  On a tablet with zero rowsets the filter
matches nothing, yet the dump reports success, because the empty-tablet
check precedes the filter check in the source. -/
theorem c5_counterexample_empty_tablet_reports_ok :
    ((⟨[]⟩ : TabletMeta).rowsets.all (fun rs => decide (rs.id ≠ 5)) = true) ∧
    (DumpRowSet flagsX 5 1 ⟨[]⟩).1 = .ok ∧
    (DumpRowSet flagsX 5 1 ⟨[]⟩).1 ≠ .invalidArgument := by
  refine ⟨rfl, rfl, by decide⟩

/-- C5 amended: on a tablet with at least one rowset, a rowset-index
filter matching no rowset of the tablet fails with InvalidArgument and
dumps nothing, before any rowset or block dump occurs; a tablet with zero
rowsets instead reports success with a no-rowsets message. -/
theorem c5_unmatched_filter_invalid_argument :
    ∀ (flags : DumpFlags) (v : Int) (ncols : Nat) (meta : TabletMeta),
      meta.rowsets ≠ [] → v ≠ -1 → (∀ rs ∈ meta.rowsets, rs.id ≠ v) →
      DumpRowSet flags v ncols meta = (.invalidArgument, []) := by
  intro flags v ncols meta hne hv h
  unfold DumpRowSet
  rw [if_neg hne, if_pos hv]
  have hfind : rowsetSelectedByFilter meta v = none := by
    unfold rowsetSelectedByFilter
    rw [List.find?_eq_none]
    intro rs hrs
    simp only [decide_eq_true_eq]
    exact h rs hrs
  rw [hfind]

/-- C5 amended witness: a concrete one-rowset tablet with persisted id 3
and filter value 5 fails with InvalidArgument and dumps nothing. -/
theorem c5_unmatched_filter_invalid_argument_witness :
    DumpRowSet flagsX 5 1 ⟨[rsC]⟩ = (.invalidArgument, []) :=
  c5_unmatched_filter_invalid_argument flagsX 5 1 ⟨[rsC]⟩ (by decide) (by decide)
    (by decide)

/-- C8: a delta block that opens and decodes with zero entries is the
distinguished non-fatal Empty outcome: its dump reports the block as empty
and returns success with no batches, and the surrounding rowset dump still
processes every sibling block, its report list covering all blocks. -/
theorem c8_empty_delta_block_nonfatal :
    ∀ (flags : DumpFlags) (ncols : Nat) (rs : RowSetMeta),
      flags.metadataOnly = false →
      (∀ cb ∈ rs.colBlocks, cb.openOk = true) →
      (∀ b ∈ rs.undoBlocks ++ rs.redoBlocks, b.openOk = true) →
      ((DumpRowSetInternal flags ncols rs).1 = .ok) ∧
      ((DumpRowSetInternal flags ncols rs).2 =
        rs.colBlocks.map (fun _ => .columnDumped) ++
        rs.undoBlocks.map (fun b =>
          .delta .UNDO (DumpDeltaCFileBlockInternal flags rs.numRows ncols b .UNDO)) ++
        rs.redoBlocks.map (fun b =>
          .delta .REDO (DumpDeltaCFileBlockInternal flags rs.numRows ncols b .REDO))) ∧
      (∀ (blk : DeltaBlock) (dt : DeltaType),
        blk.openOk = true → blk.entries = [] →
        DumpDeltaCFileBlockInternal flags rs.numRows ncols blk dt =
          ⟨.ok, some (snapshotForDeltaType dt), true, [], []⟩) := by
  intro flags ncols rs hmo hc hd
  have hall := dumpRowSetInternal_all_ok flags ncols rs hmo hc hd
  refine ⟨?_, ?_, ?_⟩
  · rw [hall]
  · rw [hall]
  · intro blk dt hb hbe
    unfold DumpDeltaCFileBlockInternal
    simp [hb, hmo, hbe]

/-- C8 witness: a concrete rowset whose UNDO block is empty still reports
success, its report list covers the empty block and its REDO sibling, and
the empty block dump yields the Empty outcome under the none-visible
snapshot. -/
theorem c8_empty_delta_block_nonfatal_witness :
    (DumpRowSetInternal flagsX 1 rsW).1 = .ok ∧
    (DumpRowSetInternal flagsX 1 rsW).2.length = 2 ∧
    DumpDeltaCFileBlockInternal flagsX rsW.numRows 1 emptyUndoBlk .UNDO =
      ⟨.ok, some .noneVisible, true, [], []⟩ := by
  obtain ⟨h1, h2, h3⟩ := c8_empty_delta_block_nonfatal flagsX 1 rsW rfl
    (by decide) (by decide)
  refine ⟨h1, ?_, ?_⟩
  · rw [h2]
    decide
  · exact h3 emptyUndoBlk .UNDO rfl rfl

/-- C10: when a rowset filter is supplied, the dumped rowset is the first
whose persisted metadata id equals the filter value; on any tablet whose
printed dump-all ordinals all differ from the persisted ids, the rowset the
filter selects is never the rowset printed with that ordinal number, and
the filtered dump emits exactly the selected rowset. -/
theorem c10_filter_selects_by_persisted_id :
    ∀ (flags : DumpFlags) (ncols : Nat) (meta : TabletMeta) (v : Int),
      ((ordinalNumbered flags ncols meta.rowsets).all
        (fun t => decide (t.2.id ≠ (t.1 : Int))) = true) →
      ∀ (rsSel r : RowSetMeta) (i : Nat),
        rowsetSelectedByFilter meta v = some rsSel →
        (i, r) ∈ ordinalNumbered flags ncols meta.rowsets →
        (i : Int) = v →
        rsSel ≠ r ∧
          (meta.rowsets ≠ [] → v ≠ -1 →
            (DumpRowSet flags v ncols meta).2.map (fun t => t.2.1) = [rsSel]) := by
  intro flags ncols meta v hall rsSel r i hsel hmem hiv
  have hsel2 : meta.rowsets.find? (fun rs => decide (rs.id = v)) = some rsSel := hsel
  have h1b := List.find?_some hsel2
  have h1 : rsSel.id = v := by simpa using h1b
  have h2 : r.id ≠ (i : Int) :=
    of_decide_eq_true (List.all_eq_true.mp hall (i, r) hmem)
  constructor
  · intro heq
    rw [heq] at h1
    rw [hiv] at h2
    exact h2 h1
  · intro hne hv
    unfold DumpRowSet
    rw [if_neg hne, if_pos hv, hsel]
    rfl

/-- C10 witness: a two-rowset tablet whose persisted ids are 1 then 0; the
filter value 1 selects the first rowset while ordinal number 1 names the
second, so the two numberings disagree, and the filtered dump emits the id
selected rowset. -/
theorem c10_filter_selects_by_persisted_id_witness :
    rsA ≠ rsB ∧
    (DumpRowSet flagsX 1 1 ⟨[rsA, rsB]⟩).2.map (fun t => t.2.1) = [rsA] := by
  obtain ⟨h1, h2⟩ := c10_filter_selects_by_persisted_id flagsX 1 ⟨[rsA, rsB]⟩ 1
    (by decide) rsA rsB 1 (by decide) (by decide) (by decide)
  exact ⟨h1, h2 (by decide) (by decide)⟩

end KuduLocalReplica
